import Mathlib

/-!
Verification of the `swiss-knife` process-killer CLI (`src/killer.ts`).

The program is embedded shallowly:
* JS strings are `List Char`; `trim`, `split("\n")`, `parseInt(s, 10)` and the
  numeric-token regex `^\d+$` are modelled directly.
* The external `exec` layer is an oracle (`World`) giving, for each listing
  command and each kill command, the outcome the OS would report.
* `findPidByProcessName`, `killProcess` and `main` mirror the TypeScript
  functions; `main` produces the trace of external calls and diagnostics it
  performs together with the process exit code.
-/

namespace Killer

/-- The platform branch of the code: `os.platform() === "win32"` or not. -/
inductive Platform where
  | win32
  | posix
deriving DecidableEq

/-- JS whitespace characters relevant to `String.prototype.trim` and
`parseInt` (the ASCII ones). -/
def isWsChar (c : Char) : Bool :=
  c = ' ' || c = '\t' || c = '\n' || c = '\r' || c = Char.ofNat 11 || c = Char.ofNat 12

/-- Model of `s.trim()`: strip leading and trailing whitespace. -/
def trim (s : List Char) : List Char :=
  ((s.dropWhile isWsChar).reverse.dropWhile isWsChar).reverse

/-- Model of `s.split("\n")`: split on newline characters; the result is
never empty and `"".split("\n")` is `[""]`. -/
def splitNl : List Char → List (List Char)
  | [] => [[]]
  | c :: rest =>
    if c = '\n' then [] :: splitNl rest
    else
      match splitNl rest with
      | [] => [[c]]
      | l :: ls => (c :: l) :: ls

/-- Join lines with `'\n'` (left inverse of `splitNl` on newline-free lines). -/
def joinNl : List (List Char) → List Char
  | [] => []
  | [l] => l
  | l :: ls => l ++ '\n' :: joinNl ls

/-- Numeric value of one decimal digit character. -/
def digitVal (c : Char) : Nat := c.toNat - '0'.toNat

/-- Decimal value of a digit string (leading zeros allowed). -/
def decimalVal (ds : List Char) : Nat :=
  ds.foldl (fun acc c => acc * 10 + digitVal c) 0

/-- Parse the longest leading run of decimal digits; `none` when there is no
leading digit (the `NaN` case of `parseInt`). -/
def parseDigits (s : List Char) : Option Nat :=
  if (s.takeWhile Char.isDigit).isEmpty then none
  else some (decimalVal (s.takeWhile Char.isDigit))

/-- Sign-and-digits step of `parseInt` after whitespace was skipped. -/
def jsParseIntTrimmed : List Char → Option Int
  | [] => none
  | c :: rest =>
    if c = '-' then (parseDigits rest).map (fun n => -(n : Int))
    else if c = '+' then (parseDigits rest).map (fun n => (n : Int))
    else (parseDigits (c :: rest)).map (fun n => (n : Int))

/-- Model of `parseInt(s, 10)`: skip leading whitespace, allow one sign, then
read the longest digit prefix; `none` models `NaN`. -/
def jsParseInt (s : List Char) : Option Int :=
  jsParseIntTrimmed (s.dropWhile isWsChar)

/-- The regex `^\d+$` used by the driver to classify a token as a PID. -/
def isNumericToken (s : List Char) : Bool :=
  !s.isEmpty && s.all Char.isDigit

/-- POSIX branch of the resolver's parsing: `stdout.trim().split("\n")`,
`parseInt` each line, keep the non-`NaN` ones in order. -/
def parsePgrepOutput (stdout : List Char) : List Int :=
  (splitNl (trim stdout)).filterMap jsParseInt

/-- Everything but the double-quote character, i.e. the regex class `[^"]`. -/
def notQuote (c : Char) : Bool := c ≠ '"'

/-- Match `"([^"]+)"` at the head of the list; on success return the captured
field and the remainder after the closing quote. -/
def parseField : List Char → Option (List Char × List Char)
  | [] => none
  | c :: rest =>
    if c = '"' then
      if (rest.takeWhile notQuote).isEmpty then none
      else if (rest.dropWhile notQuote).isEmpty then none
      else some (rest.takeWhile notQuote, (rest.dropWhile notQuote).tail)
    else none

/-- Expect a comma. -/
def expectComma : List Char → Option (List Char)
  | [] => none
  | c :: r => if c = ',' then some r else none

/-- Match the regex `"([^"]+)","([^"]+)","([^"]+)"` at the head of the list,
returning capture group 2. -/
def matchThreeFieldsAt (l : List Char) : Option (List Char) :=
  (parseField l).bind (fun f1 =>
    (expectComma f1.2).bind (fun r1 =>
      (parseField r1).bind (fun f2 =>
        (expectComma f2.2).bind (fun r2 =>
          (parseField r2).bind (fun _ => some f2.1)))))

/-- Unanchored regex search (`line.match(...)`), leftmost occurrence. -/
def findCsvMatch : List Char → Option (List Char)
  | [] => none
  | c :: rest =>
    match matchThreeFieldsAt (c :: rest) with
    | some b => some b
    | none => findCsvMatch rest

/-- One `tasklist` CSV line: regex-extract the second quoted field, then
`parseInt` it; `none` when either step fails. -/
def parseTasklistLine (line : List Char) : Option Int :=
  match findCsvMatch line with
  | none => none
  | some field2 => jsParseInt field2

/-- Windows branch of the resolver's parsing: trim, split into lines, drop the
header row, parse each remaining row. -/
def parseTasklistOutput (stdout : List Char) : List Int :=
  ((splitNl (trim stdout)).drop 1).filterMap parseTasklistLine

/-- A well-formed `tasklist /FO CSV` row with three quoted fields (quote-free
and non-empty in the intended use). -/
def mkCsvRow (a b c : List Char) : List Char :=
  '"' :: (a ++ '"' :: ',' :: '"' :: (b ++ '"' :: ',' :: '"' :: (c ++ '"' :: [])))

/-- Outcome of one `exec` call: success with stdout, or failure with the
optional numeric `error.code` and whatever stdout was produced. -/
inductive ExecOutcome where
  | ok (stdout : List Char)
  | err (code : Option Int) (stdout : List Char)
deriving DecidableEq

/-- The error a rejected promise carries (the underlying command failure,
modelled by its exit code). -/
structure ExecError where
  code : Option Int
deriving DecidableEq

/-- The resolver `findPidByProcessName`: on a failed listing command, a
non-Windows platform with `error.code === 1` resolves to `[]`; every other
failure rejects. On success, parse the platform-specific output. -/
def findPidByProcessName (platform : Platform) (outcome : ExecOutcome) :
    Except ExecError (List Int) :=
  match outcome with
  | ExecOutcome.err code _ =>
    if platform ≠ Platform.win32 ∧ code = some 1 then Except.ok []
    else Except.error ⟨code⟩
  | ExecOutcome.ok stdout =>
    Except.ok
      (match platform with
       | Platform.win32 => parseTasklistOutput stdout
       | Platform.posix => parsePgrepOutput stdout)

/-- The terminator `killProcess`: rejects exactly when the kill command
failed. -/
def killProcess (outcome : Option ExecError) : Except ExecError Unit :=
  match outcome with
  | some e => Except.error e
  | none => Except.ok ()

/-- Observable actions of one run: external calls and diagnostics, in order. -/
inductive Event where
  | resolveCall (name : List Char)
  | killCall (pid : Int)
  | logKilling (pid : Int)
  | logKilled (pid : Int)
  | logFound (name : List Char) (pids : List Int)
  | warnNotFound (name : List Char)
  | errCannotKill (pid : Int)
  | errToken (name : List Char)
  | errUsage
deriving DecidableEq

/-- The external world: the exec outcome of the listing command for each name,
and of the kill command for each pid. -/
structure World where
  resolveExec : List Char → ExecOutcome
  killExec : Int → Option ExecError

/-- Result of a run: the event trace and the process exit code. -/
structure MainResult where
  events : List Event
  exitCode : Nat
deriving DecidableEq

/-- Body of the driver's loop for one CLI token (`main`'s `for` body with its
`try`/`catch` structure). -/
def processArg (platform : Platform) (w : World) (arg : List Char) : List Event :=
  if isNumericToken arg then
    Event.logKilling (decimalVal arg : Int) :: Event.killCall (decimalVal arg : Int) ::
      (match killProcess (w.killExec (decimalVal arg : Int)) with
       | Except.ok _ => [Event.logKilled (decimalVal arg : Int)]
       | Except.error _ => [Event.errToken arg])
  else
    Event.resolveCall arg ::
      (match findPidByProcessName platform (w.resolveExec arg) with
       | Except.error _ => [Event.errToken arg]
       | Except.ok [] => [Event.warnNotFound arg]
       | Except.ok (q :: qs) =>
         Event.logFound arg (q :: qs) ::
           (q :: qs).flatMap (fun pid =>
             Event.killCall pid ::
               (match killProcess (w.killExec pid) with
                | Except.ok _ => [Event.logKilled pid]
                | Except.error _ => [Event.errCannotKill pid])))

/-- The driver `main`: usage error on an empty argument list (exit 2),
otherwise process every token in order and exit 0. -/
def main (platform : Platform) (w : World) (args : List (List Char)) : MainResult :=
  if args.isEmpty then ⟨[Event.errUsage], 2⟩
  else ⟨args.flatMap (processArg platform w), 0⟩

/-- The kill commands issued during a trace, in order. -/
def killCalls (evts : List Event) : List Int :=
  evts.filterMap (fun e =>
    match e with
    | Event.killCall p => some p
    | _ => none)

/-- The resolver calls issued during a trace, in order. -/
def resolveCalls (evts : List Event) : List (List Char) :=
  evts.filterMap (fun e =>
    match e with
    | Event.resolveCall n => some n
    | _ => none)

/-- A world where every listing succeeds with empty output and every kill
succeeds. -/
def wQuiet : World :=
  ⟨fun _ => ExecOutcome.ok [], fun _ => none⟩

/-- A world where every listing fails with exit code 1 and every kill fails
with exit code 1. -/
def wFailing : World :=
  ⟨fun _ => ExecOutcome.err (some 1) [], fun _ => some ⟨some 1⟩⟩

/-! ### Trace bookkeeping lemmas -/

lemma killCalls_append (a b : List Event) :
    killCalls (a ++ b) = killCalls a ++ killCalls b := by
  simp [killCalls]

lemma resolveCalls_append (a b : List Event) :
    resolveCalls (a ++ b) = resolveCalls a ++ resolveCalls b := by
  simp [resolveCalls]

lemma killCalls_flatMap {α : Type} (f : α → List Event) (l : List α) :
    killCalls (l.flatMap f) = l.flatMap (fun a => killCalls (f a)) := by
  induction l with
  | nil => rfl
  | cons a t ih =>
    rw [List.flatMap_cons, List.flatMap_cons, killCalls_append, ih]

lemma resolveCalls_flatMap {α : Type} (f : α → List Event) (l : List α) :
    resolveCalls (l.flatMap f) = l.flatMap (fun a => resolveCalls (f a)) := by
  induction l with
  | nil => rfl
  | cons a t ih =>
    rw [List.flatMap_cons, List.flatMap_cons, resolveCalls_append, ih]

lemma killCalls_cons_resolve (n : List Char) (rest : List Event) :
    killCalls (Event.resolveCall n :: rest) = killCalls rest := by
  simp [killCalls]

lemma killCalls_cons_found (n : List Char) (pids : List Int) (rest : List Event) :
    killCalls (Event.logFound n pids :: rest) = killCalls rest := by
  simp [killCalls]

lemma resolveCalls_cons_resolve (n : List Char) (rest : List Event) :
    resolveCalls (Event.resolveCall n :: rest) = n :: resolveCalls rest := by
  simp [resolveCalls]

lemma resolveCalls_cons_found (n : List Char) (pids : List Int) (rest : List Event) :
    resolveCalls (Event.logFound n pids :: rest) = resolveCalls rest := by
  simp [resolveCalls]

/-- Each iteration of the inner per-pid loop issues exactly one kill call,
whatever the kill outcome is. -/
lemma killCalls_killLoop (w : World) (pids : List Int) :
    killCalls (pids.flatMap (fun pid =>
      Event.killCall pid ::
        (match killProcess (w.killExec pid) with
         | Except.ok _ => [Event.logKilled pid]
         | Except.error _ => [Event.errCannotKill pid]))) = pids := by
  induction pids with
  | nil => rfl
  | cons p ps ih =>
    rw [List.flatMap_cons, killCalls_append, ih]
    cases killProcess (w.killExec p) <;> simp [killCalls]

/-- The inner per-pid loop never calls the resolver. -/
lemma resolveCalls_killLoop (w : World) (pids : List Int) :
    resolveCalls (pids.flatMap (fun pid =>
      Event.killCall pid ::
        (match killProcess (w.killExec pid) with
         | Except.ok _ => [Event.logKilled pid]
         | Except.error _ => [Event.errCannotKill pid]))) = [] := by
  induction pids with
  | nil => rfl
  | cons p ps ih =>
    rw [List.flatMap_cons, resolveCalls_append, ih]
    cases killProcess (w.killExec p) <;> simp [resolveCalls]

/-- The kill calls one token gives rise to, as a function of its
classification and of the resolver's answer only. -/
lemma killCalls_processArg (pl : Platform) (w : World) (arg : List Char) :
    killCalls (processArg pl w arg) =
      if isNumericToken arg then [(decimalVal arg : Int)]
      else
        match findPidByProcessName pl (w.resolveExec arg) with
        | Except.error _ => []
        | Except.ok pids => pids := by
  unfold processArg
  by_cases hn : isNumericToken arg
  · rw [if_pos hn, if_pos hn]
    cases killProcess (w.killExec (decimalVal arg : Int)) <;> simp [killCalls]
  · rw [if_neg hn, if_neg hn]
    cases hf : findPidByProcessName pl (w.resolveExec arg) with
    | error e => simp [killCalls]
    | ok pids =>
      cases pids with
      | nil => simp [killCalls]
      | cons q qs =>
        rw [killCalls_cons_resolve, killCalls_cons_found, killCalls_killLoop w (q :: qs)]

/-- The resolver calls one token gives rise to. -/
lemma resolveCalls_processArg (pl : Platform) (w : World) (arg : List Char) :
    resolveCalls (processArg pl w arg) =
      if isNumericToken arg then [] else [arg] := by
  unfold processArg
  by_cases hn : isNumericToken arg
  · rw [if_pos hn, if_pos hn]
    cases killProcess (w.killExec (decimalVal arg : Int)) <;> simp [resolveCalls]
  · rw [if_neg hn, if_neg hn]
    cases hf : findPidByProcessName pl (w.resolveExec arg) with
    | error e => simp [resolveCalls]
    | ok pids =>
      cases pids with
      | nil => simp [resolveCalls]
      | cons q qs =>
        rw [resolveCalls_cons_resolve, resolveCalls_cons_found,
          resolveCalls_killLoop w (q :: qs)]

lemma main_nonempty (pl : Platform) (w : World) (args : List (List Char))
    (h : args ≠ []) :
    main pl w args = ⟨args.flatMap (processArg pl w), 0⟩ := by
  unfold main
  rw [if_neg]
  simp [List.isEmpty_iff, h]

/-! ### Claim theorems -/

/-- C1: a CLI token made of one or more decimal digits leads to exactly one
terminate call, with the token's decimal value, and to no resolver call; on
the single-token input the whole run issues exactly that one kill call. -/
theorem numeric_token_terminates_directly (pl : Platform) (w : World)
    (arg : List Char) (h : isNumericToken arg = true) :
    killCalls (processArg pl w arg) = [(decimalVal arg : Int)] ∧
    resolveCalls (processArg pl w arg) = [] ∧
    killCalls (main pl w [arg]).events = [(decimalVal arg : Int)] ∧
    resolveCalls (main pl w [arg]).events = [] := by
  have hm : main pl w [arg] = ⟨[arg].flatMap (processArg pl w), 0⟩ :=
    main_nonempty pl w [arg] (by simp)
  refine ⟨?_, ?_, ?_, ?_⟩
  · rw [killCalls_processArg, if_pos h]
  · rw [resolveCalls_processArg, if_pos h]
  · rw [hm]
    show killCalls ([arg].flatMap (processArg pl w)) = _
    rw [killCalls_flatMap]
    simp only [List.flatMap_cons, List.flatMap_nil, List.append_nil]
    rw [killCalls_processArg, if_pos h]
  · rw [hm]
    show resolveCalls ([arg].flatMap (processArg pl w)) = _
    rw [resolveCalls_flatMap]
    simp only [List.flatMap_cons, List.flatMap_nil, List.append_nil]
    rw [resolveCalls_processArg, if_pos h]

/-- C1 witness: input `["1234"]` gives one terminate call with 1234 and no
resolver call. -/
theorem numeric_token_terminates_directly_witness :
    killCalls (main Platform.posix wQuiet ["1234".toList]).events = [(1234 : Int)] ∧
    resolveCalls (main Platform.posix wQuiet ["1234".toList]).events = [] := by
  have h := numeric_token_terminates_directly Platform.posix wQuiet
    "1234".toList (by decide)
  refine ⟨?_, h.2.2.2⟩
  rw [h.2.2.1]
  decide

/-- C2: on a non-Windows platform, a listing-command failure with exit code 1
resolves to the empty PID list, while a failure with any other code is
surfaced as an error carrying that code. -/
theorem posix_listing_failure_handling (code : Option Int) (s t : List Char)
    (h : code ≠ some 1) :
    findPidByProcessName Platform.posix (ExecOutcome.err (some 1) s) =
      Except.ok [] ∧
    findPidByProcessName Platform.posix (ExecOutcome.err code t) =
      Except.error ⟨code⟩ := by
  constructor
  · simp only [findPidByProcessName]
    rw [if_pos]
    decide
  · simp only [findPidByProcessName]
    rw [if_neg]
    intro hc
    exact h hc.2

/-- C2 witness: exit code 1 yields `[]`; exit code 2 yields an error. -/
theorem posix_listing_failure_handling_witness :
    findPidByProcessName Platform.posix (ExecOutcome.err (some 1) []) =
      Except.ok [] ∧
    findPidByProcessName Platform.posix (ExecOutcome.err (some 2) []) =
      Except.error ⟨some 2⟩ := by
  exact posix_listing_failure_handling (some 2) [] [] (by decide)

/-- C3: a non-numeric token whose resolution yields `[]` produces exactly a
resolver call followed by the "not found" diagnostic — no kill call, no error
diagnostic — and the single-token run exits with status 0. -/
theorem empty_resolution_is_not_found (pl : Platform) (w : World)
    (arg : List Char) (hn : isNumericToken arg = false)
    (he : findPidByProcessName pl (w.resolveExec arg) = Except.ok []) :
    processArg pl w arg = [Event.resolveCall arg, Event.warnNotFound arg] ∧
    killCalls (processArg pl w arg) = [] ∧
    (main pl w [arg]).exitCode = 0 := by
  have hp : processArg pl w arg = [Event.resolveCall arg, Event.warnNotFound arg] := by
    unfold processArg
    rw [if_neg (by simp [hn]), he]
  refine ⟨hp, ?_, ?_⟩
  · rw [hp]
    simp [killCalls]
  · rw [main_nonempty pl w [arg] (by simp)]

/-- C3 witness: token `"ghost-process"` in a world where the listing command
returns empty output. -/
theorem empty_resolution_is_not_found_witness :
    processArg Platform.posix wQuiet "ghost-process".toList =
      [Event.resolveCall "ghost-process".toList,
       Event.warnNotFound "ghost-process".toList] ∧
    killCalls (processArg Platform.posix wQuiet "ghost-process".toList) = [] ∧
    (main Platform.posix wQuiet ["ghost-process".toList]).exitCode = 0 := by
  exact empty_resolution_is_not_found Platform.posix wQuiet
    "ghost-process".toList (by decide) rfl

/-- C4: the sequences of kill calls and of resolver calls of a whole run do
not depend on the outcomes of the kill commands: two worlds that answer
listing commands identically produce identical call sequences, however many
kills fail in either. Hence a termination failure never prevents any later
termination attempt of the same or of a later token. -/
theorem kill_failures_never_abort_siblings (pl : Platform) (w wx : World)
    (args : List (List Char)) (h : w.resolveExec = wx.resolveExec) :
    killCalls (main pl w args).events = killCalls (main pl wx args).events ∧
    resolveCalls (main pl w args).events =
      resolveCalls (main pl wx args).events := by
  cases args with
  | nil => exact ⟨rfl, rfl⟩
  | cons a t =>
    rw [main_nonempty pl w (a :: t) (by simp),
        main_nonempty pl wx (a :: t) (by simp)]
    constructor
    · show killCalls ((a :: t).flatMap (processArg pl w)) = _
      rw [killCalls_flatMap, killCalls_flatMap]
      refine congrArg _ ?_
      funext arg
      rw [killCalls_processArg, killCalls_processArg, h]
    · show resolveCalls ((a :: t).flatMap (processArg pl w)) = _
      rw [resolveCalls_flatMap, resolveCalls_flatMap]
      refine congrArg _ ?_
      funext arg
      rw [resolveCalls_processArg, resolveCalls_processArg]

/-- C4 witness: with identical resolvers, a world where every kill fails and
a world where every kill succeeds issue the same call sequences on input
`["7", "8"]`. -/
theorem kill_failures_never_abort_siblings_witness :
    killCalls (main Platform.posix
        ⟨wQuiet.resolveExec, fun _ => some ⟨some 1⟩⟩
        ["7".toList, "8".toList]).events =
      killCalls (main Platform.posix wQuiet ["7".toList, "8".toList]).events ∧
    resolveCalls (main Platform.posix
        ⟨wQuiet.resolveExec, fun _ => some ⟨some 1⟩⟩
        ["7".toList, "8".toList]).events =
      resolveCalls (main Platform.posix wQuiet
        ["7".toList, "8".toList]).events := by
  exact kill_failures_never_abort_siblings Platform.posix
    ⟨wQuiet.resolveExec, fun _ => some ⟨some 1⟩⟩ wQuiet
    ["7".toList, "8".toList] rfl

/-- C5: with zero CLI arguments the run is exactly the usage diagnostic with
exit status 2, and performs no resolver call and no kill call. -/
theorem zero_args_usage_error (pl : Platform) (w : World) :
    main pl w [] = ⟨[Event.errUsage], 2⟩ ∧
    killCalls (main pl w []).events = [] ∧
    resolveCalls (main pl w []).events = [] := by
  exact ⟨rfl, rfl, rfl⟩

/-- C6: every run on a non-empty argument list exits with status 0, whatever
the resolver and kill outcomes are. -/
theorem nonempty_args_exit_zero (pl : Platform) (w : World)
    (args : List (List Char)) (h : args ≠ []) :
    (main pl w args).exitCode = 0 := by
  rw [main_nonempty pl w args h]

/-- C6 witness: a run over one numeric and one name token, with every
external command failing, still exits 0. -/
theorem nonempty_args_exit_zero_witness :
    (main Platform.posix wFailing ["42".toList, "chrome".toList]).exitCode = 0 := by
  exact nonempty_args_exit_zero Platform.posix wFailing
    ["42".toList, "chrome".toList] (by simp)

/-- C9: on Windows, a listing-command failure is always surfaced as an error,
exit code 1 included — the "exit code 1 means no matches" downgrade applies
only off Windows. -/
theorem windows_error_code_one_still_rejects (code : Option Int)
    (s : List Char) :
    findPidByProcessName Platform.win32 (ExecOutcome.err code s) =
      Except.error ⟨code⟩ := by
  simp only [findPidByProcessName]
  rw [if_neg]
  intro hc
  exact hc.1 rfl

/-! ### Line splitting and `parseInt` lemmas (for the parsing claims) -/

lemma splitNl_nl_cons (rest : List Char) :
    splitNl ('\n' :: rest) = [] :: splitNl rest := by
  simp [splitNl]

lemma splitNl_cons_aux (c : Char) (rest a : List Char) (as : List (List Char))
    (h : splitNl rest = a :: as) (hc : c ≠ '\n') :
    splitNl (c :: rest) = (c :: a) :: as := by
  simp [splitNl, hc, h]

lemma splitNl_no_nl (l : List Char) (h : '\n' ∉ l) : splitNl l = [l] := by
  induction l with
  | nil => rfl
  | cons c rest ih =>
    have hc : c ≠ '\n' := by
      intro e
      exact h (by simp [e])
    have hr : '\n' ∉ rest := fun m => h (List.mem_cons_of_mem c m)
    exact splitNl_cons_aux c rest rest [] (ih hr) hc

lemma splitNl_append (l r : List Char) (h : '\n' ∉ l) :
    splitNl (l ++ '\n' :: r) = l :: splitNl r := by
  induction l with
  | nil =>
    simpa using splitNl_nl_cons r
  | cons c t ih =>
    have hc : c ≠ '\n' := by
      intro e
      exact h (by simp [e])
    have ht : '\n' ∉ t := fun m => h (List.mem_cons_of_mem c m)
    have step := splitNl_cons_aux c (t ++ '\n' :: r) t (splitNl r) (ih ht) hc
    simpa using step

lemma splitNl_joinNl_cons (a : List Char) (t : List (List Char))
    (h : ∀ l ∈ a :: t, '\n' ∉ l) : splitNl (joinNl (a :: t)) = a :: t := by
  induction t generalizing a with
  | nil => exact splitNl_no_nl a (h a (List.mem_cons_self a []))
  | cons b u ih =>
    have hj : joinNl (a :: b :: u) = a ++ '\n' :: joinNl (b :: u) := rfl
    rw [hj, splitNl_append a _ (h a (List.mem_cons_self a (b :: u))),
        ih b (fun l hl => h l (List.mem_cons_of_mem a hl))]

lemma isWsChar_eq_false_of_isDigit (c : Char) (h : c.isDigit = true) :
    isWsChar c = false := by
  unfold isWsChar
  by_contra hw
  rw [Bool.not_eq_false, Bool.or_eq_true, Bool.or_eq_true, Bool.or_eq_true,
      Bool.or_eq_true, Bool.or_eq_true] at hw
  simp only [decide_eq_true_eq] at hw
  rcases hw with ((((h1 | h1) | h1) | h1) | h1) | h1 <;>
    (subst h1; exact absurd h (by decide))

lemma dropWhile_isWs_digit_head (c : Char) (t : List Char)
    (h : c.isDigit = true) : (c :: t).dropWhile isWsChar = c :: t := by
  rw [List.dropWhile_cons, if_neg (by simp [isWsChar_eq_false_of_isDigit c h])]

lemma takeWhile_isDigit_all (l : List Char) (h : ∀ c ∈ l, c.isDigit = true) :
    l.takeWhile Char.isDigit = l := by
  induction l with
  | nil => rfl
  | cons c t ih =>
    rw [List.takeWhile_cons, if_pos (h c (List.mem_cons_self c t)),
        ih (fun x hx => h x (List.mem_cons_of_mem c hx))]

/-- A fully numeric line parses to its decimal value. -/
lemma jsParseInt_numeric (l : List Char) (h : isNumericToken l = true) :
    jsParseInt l = some (decimalVal l : Int) := by
  have hall : ∀ c ∈ l, c.isDigit = true := by
    intro c hc
    have h2 := h
    unfold isNumericToken at h2
    rw [Bool.and_eq_true_iff] at h2
    exact List.all_eq_true.1 h2.2 c hc
  cases l with
  | nil => simp [isNumericToken] at h
  | cons c t =>
    have hc : c.isDigit = true := hall c (List.mem_cons_self c t)
    have hmc : ¬c = '-' := by
      intro e
      subst e
      exact absurd hc (by decide)
    have hpc : ¬c = '+' := by
      intro e
      subst e
      exact absurd hc (by decide)
    unfold jsParseInt
    rw [dropWhile_isWs_digit_head c t hc]
    simp only [jsParseIntTrimmed]
    rw [if_neg hmc, if_neg hpc]
    unfold parseDigits
    rw [takeWhile_isDigit_all (c :: t) hall, if_neg (by simp)]
    rfl

lemma parseDigits_no_digits (s : List Char) (h : ∀ c ∈ s, c.isDigit = false) :
    parseDigits s = none := by
  cases s with
  | nil => rfl
  | cons c t =>
    have htw : (c :: t).takeWhile Char.isDigit = [] := by
      rw [List.takeWhile_cons, if_neg (by simp [h c (List.mem_cons_self c t)])]
    unfold parseDigits
    rw [htw]
    rfl

/-- A line without any digit character is skipped by `parseInt`. -/
lemma jsParseInt_no_digits (l : List Char) (h : ∀ c ∈ l, c.isDigit = false) :
    jsParseInt l = none := by
  have hsub : ∀ c ∈ l.dropWhile isWsChar, c.isDigit = false := fun c hc =>
    h c ((List.dropWhile_sublist isWsChar).mem hc)
  unfold jsParseInt
  cases hd : l.dropWhile isWsChar with
  | nil => rfl
  | cons c rest =>
    have hc : c.isDigit = false := hsub c (by rw [hd]; exact List.mem_cons_self c rest)
    have hrest : ∀ x ∈ rest, x.isDigit = false := fun x hx =>
      hsub x (by rw [hd]; exact List.mem_cons_of_mem c hx)
    simp only [jsParseIntTrimmed]
    by_cases h1 : c = '-'
    · rw [if_pos h1, parseDigits_no_digits rest hrest]
      rfl
    · rw [if_neg h1]
      by_cases h2 : c = '+'
      · rw [if_pos h2, parseDigits_no_digits rest hrest]
        rfl
      · rw [if_neg h2, parseDigits_no_digits (c :: rest) ?hall]
        · rfl
        · intro x hx
          rcases List.mem_cons.1 hx with e | m
          · rw [e]
            exact hc
          · exact hrest x m

/-- C7: on POSIX, the resolver's parsing of command output is exactly: one
line per candidate, keep the `parseInt`-parseable lines' values in output
order; fully numeric lines contribute their decimal value and digit-free
lines are silently skipped. -/
theorem posix_output_parsing (lines : List (List Char))
    (hne : lines ≠ [])
    (hnl : ∀ l ∈ lines, '\n' ∉ l)
    (ht : trim (joinNl lines) = joinNl lines) :
    parsePgrepOutput (joinNl lines) = lines.filterMap jsParseInt ∧
    (∀ l ∈ lines, isNumericToken l = true →
      jsParseInt l = some (decimalVal l : Int)) ∧
    (∀ l ∈ lines, (∀ c ∈ l, c.isDigit = false) → jsParseInt l = none) := by
  refine ⟨?_, fun l _ h => jsParseInt_numeric l h,
    fun l _ h => jsParseInt_no_digits l h⟩
  unfold parsePgrepOutput
  rw [ht]
  cases lines with
  | nil => exact absurd rfl hne
  | cons a t => rw [splitNl_joinNl_cons a t hnl]

/-- C7 witness: output lines `123`, `ab`, `45` parse to `[123, 45]`. -/
theorem posix_output_parsing_witness :
    parsePgrepOutput (joinNl ["123".toList, "ab".toList, "45".toList]) =
      [(123 : Int), (45 : Int)] := by
  have h := (posix_output_parsing ["123".toList, "ab".toList, "45".toList]
    (by simp) (by decide) (by decide)).1
  rw [h]
  decide

/-! ### Tasklist CSV regex lemmas -/

lemma takeWhile_notQuote_append (a r : List Char) (h : '"' ∉ a) :
    (a ++ '"' :: r).takeWhile notQuote = a ∧
    (a ++ '"' :: r).dropWhile notQuote = '"' :: r := by
  induction a with
  | nil =>
    constructor
    · simp [List.takeWhile_cons, notQuote]
    · simp [List.dropWhile_cons, notQuote]
  | cons x t ih =>
    have hx : x ≠ '"' := by
      intro e
      exact h (by simp [e])
    have ht : '"' ∉ t := fun m => h (List.mem_cons_of_mem x m)
    obtain ⟨h1, h2⟩ := ih ht
    have hq : notQuote x = true := by simp [notQuote, hx]
    constructor
    · rw [List.cons_append, List.takeWhile_cons, if_pos hq, h1]
    · rw [List.cons_append, List.dropWhile_cons, if_pos hq, h2]

lemma parseField_mk (a r : List Char) (ha : '"' ∉ a) (hne : a ≠ []) :
    parseField ('"' :: (a ++ '"' :: r)) = some (a, r) := by
  obtain ⟨h1, h2⟩ := takeWhile_notQuote_append a r ha
  simp only [parseField, if_true]
  rw [h1, h2, if_neg (by simp [hne]), if_neg (by simp)]
  rfl

lemma expectComma_cons (r : List Char) : expectComma (',' :: r) = some r := by
  simp only [expectComma, if_true]

lemma matchThreeFieldsAt_mk (a b c r : List Char)
    (ha : '"' ∉ a) (hna : a ≠ []) (hb : '"' ∉ b) (hnb : b ≠ [])
    (hc : '"' ∉ c) (hnc : c ≠ []) :
    matchThreeFieldsAt
      ('"' :: (a ++ '"' :: ',' :: '"' :: (b ++ '"' :: ',' :: '"' :: (c ++ '"' :: r)))) =
      some b := by
  simp [matchThreeFieldsAt, parseField_mk, expectComma_cons, ha, hna, hb, hnb, hc, hnc]

lemma findCsvMatch_mk (a b c r : List Char)
    (ha : '"' ∉ a) (hna : a ≠ []) (hb : '"' ∉ b) (hnb : b ≠ [])
    (hc : '"' ∉ c) (hnc : c ≠ []) :
    findCsvMatch
      ('"' :: (a ++ '"' :: ',' :: '"' :: (b ++ '"' :: ',' :: '"' :: (c ++ '"' :: r)))) =
      some b := by
  have hm := matchThreeFieldsAt_mk a b c r ha hna hb hnb hc hnc
  simp [findCsvMatch, hm]

lemma findCsvMatch_no_quote (row : List Char) (h : '"' ∉ row) :
    findCsvMatch row = none := by
  induction row with
  | nil => rfl
  | cons x t ih =>
    have hx : ¬x = '"' := by
      intro e
      exact h (by simp [e])
    have ht : '"' ∉ t := fun m => h (List.mem_cons_of_mem x m)
    have hm : matchThreeFieldsAt (x :: t) = none := by
      simp [matchThreeFieldsAt, parseField, hx]
    simp [findCsvMatch, hm, ih ht]

/-- C8: on Windows, the resolver's parsing of command output drops the header
row and maps `parseTasklistLine` over the remaining rows in order; a
well-formed quoted three-field row yields `parseInt` of its second field, and
a row without the quoted-field shape (here: without any quote character) is
silently skipped. -/
theorem windows_output_parsing (header : List Char) (rows : List (List Char))
    (hnl : ∀ l ∈ header :: rows, '\n' ∉ l)
    (ht : trim (joinNl (header :: rows)) = joinNl (header :: rows)) :
    parseTasklistOutput (joinNl (header :: rows)) =
      rows.filterMap parseTasklistLine ∧
    (∀ a b c, '"' ∉ a → a ≠ [] → '"' ∉ b → b ≠ [] → '"' ∉ c → c ≠ [] →
      parseTasklistLine (mkCsvRow a b c) = jsParseInt b) ∧
    (∀ a b c, '"' ∉ a → a ≠ [] → '"' ∉ b → b ≠ [] → '"' ∉ c → c ≠ [] →
      (∀ ch ∈ b, ch.isDigit = false) →
      parseTasklistLine (mkCsvRow a b c) = none) ∧
    (∀ row, '"' ∉ row → parseTasklistLine row = none) := by
  refine ⟨?_, ?_, ?_, ?_⟩
  · unfold parseTasklistOutput
    rw [ht, splitNl_joinNl_cons header rows hnl]
    rfl
  · intro a b c ha hna hb hnb hc hnc
    unfold mkCsvRow parseTasklistLine
    rw [findCsvMatch_mk a b c [] ha hna hb hnb hc hnc]
  · intro a b c ha hna hb hnb hc hnc hNoDigit
    unfold mkCsvRow parseTasklistLine
    rw [findCsvMatch_mk a b c [] ha hna hb hnb hc hnc]
    exact jsParseInt_no_digits b hNoDigit
  · intro row h
    unfold parseTasklistLine
    rw [findCsvMatch_no_quote row h]

/-- C8 witness: a header plus one well-formed row and one malformed row parse
to exactly the PID of the well-formed row. -/
theorem windows_output_parsing_witness :
    parseTasklistOutput
      (joinNl ["\"Image Name\",\"PID\",\"Session Name\"".toList,
        mkCsvRow "notepad.exe".toList "123".toList "Console".toList,
        "INFO: no quotes here".toList]) = [(123 : Int)] := by
  have h := (windows_output_parsing "\"Image Name\",\"PID\",\"Session Name\"".toList
    [mkCsvRow "notepad.exe".toList "123".toList "Console".toList,
     "INFO: no quotes here".toList] (by decide) (by decide)).1
  rw [h]
  decide

/-- C10: the numeric-token test accepts `"0"` and `"007"` (leading zeros),
and the driver kills their decimal values 0 and 7 — no positivity check. -/
theorem numeric_token_zero_and_leading_zeros (pl : Platform) (w : World) :
    isNumericToken "0".toList = true ∧
    isNumericToken "007".toList = true ∧
    killCalls (processArg pl w "0".toList) = [(0 : Int)] ∧
    killCalls (processArg pl w "007".toList) = [(7 : Int)] := by
  refine ⟨by decide, by decide, ?_, ?_⟩
  · rw [killCalls_processArg, if_pos (by decide)]
    decide
  · rw [killCalls_processArg, if_pos (by decide)]
    decide

end Killer
